import Mathlib

/-!
Verification development for the BGR-Pro in-browser photo editor
(`src/components/ImageEditor.tsx`).  The interactive raster editing engine
is shallowly embedded: the undo/redo history over pixel buffers, the
brush compositing logic (erase vs. restore), the crop-rectangle state
machine, and the apply-crop operation.  Pixel buffers are modelled as
total functions from integer coordinates to RGBA samples with natural
number channels; pointer coordinates are rational numbers (idealising the
JavaScript float coordinates produced by `getMousePos`).
-/

namespace BGR

/-- EditMode from `src/types.ts`. -/
inductive EditMode where
  | erase
  | restore
  | crop
deriving DecidableEq, Repr

/-- A pointer position in canvas coordinates (`getMousePos` result). -/
structure Pt where
  x : Rat
  y : Rat
deriving DecidableEq, Repr

/-- CropRect from `ImageEditor.tsx` line 12. -/
structure CropRect where
  x : Rat
  y : Rat
  width : Rat
  height : Rat
deriving DecidableEq, Repr

/-- CropAction from `ImageEditor.tsx` lines 13-19.  The `type` field holds
one of the tags used by the source. -/
structure CropAction where
  type : String
  handle : Option String
  startX : Rat
  startY : Rat
  startRect : Option CropRect
deriving DecidableEq, Repr

/-- HANDLE_SIZE from `ImageEditor.tsx` line 21. -/
def HANDLE_SIZE : Rat := 10

/-- An RGBA pixel sample; channels are byte values as stored in an
`ImageData` buffer. -/
structure Pixel where
  r : Nat
  g : Nat
  b : Nat
  a : Nat
deriving DecidableEq, Repr

/-- A pixel buffer (`ImageData`): explicit dimensions plus a total pixel
lookup (reads outside the stored rectangle are irrelevant to the claims
and simply return whatever the function yields). -/
structure Image where
  width : Nat
  height : Nat
  pix : Nat → Nat → Pixel

/-- The fully transparent black pixel (transparent padding / cleared). -/
def Pixel.clear : Pixel := ⟨0, 0, 0, 0⟩

/-- The history slice of the editor state: `history`, `historyIndex` and
the canvas contents, from `ImageEditor.tsx` lines 26-27 and 31.  It is
polymorphic in the buffer type so that the purely structural history
claims can be exercised on decidable buffers. -/
structure HistState (α : Type) where
  history : List α
  historyIndex : Nat
  canvas : α
deriving DecidableEq, Repr

/-- saveToHistory from `ImageEditor.tsx` lines 81-92: snapshot the current
canvas, truncate the history after the cursor, append, move the cursor to
the new tail. -/
def saveToHistory {α : Type} (s : HistState α) : HistState α :=
  let newHistory := s.history.take (s.historyIndex + 1) ++ [s.canvas]
  { s with history := newHistory, historyIndex := newHistory.length - 1 }

/-- handleUndo from `ImageEditor.tsx` lines 103-109: guarded cursor
decrement plus canvas restore from the history entry at the new cursor. -/
def handleUndo {α : Type} (s : HistState α) : HistState α :=
  if 0 < s.historyIndex then
    let newIndex := s.historyIndex - 1
    { s with historyIndex := newIndex, canvas := s.history.getD newIndex s.canvas }
  else s

/-- handleRedo from `ImageEditor.tsx` lines 111-117. -/
def handleRedo {α : Type} (s : HistState α) : HistState α :=
  if s.historyIndex < s.history.length - 1 then
    let newIndex := s.historyIndex + 1
    { s with historyIndex := newIndex, canvas := s.history.getD newIndex s.canvas }
  else s

/-- canUndo from `ImageEditor.tsx` line 372. -/
def canUndo {α : Type} (s : HistState α) : Bool :=
  decide (0 < s.historyIndex)

/-- canRedo from `ImageEditor.tsx` line 373. -/
def canRedo {α : Type} (s : HistState α) : Bool :=
  decide (s.historyIndex < s.history.length - 1)

/-- Completing a stroke that leaves buffer `b` on the canvas and then
releasing the pointer: the canvas holds `b` and `saveToHistory` runs once
(`stopDrawing`, lines 179-185). -/
def pushBuf {α : Type} (s : HistState α) (b : α) : HistState α :=
  saveToHistory { s with canvas := b }

/-- A sequence of completed strokes, each pushing one buffer. -/
def pushAll {α : Type} (s : HistState α) (bs : List α) : HistState α :=
  bs.foldl pushBuf s

theorem getD_default_irrel {α : Type} (l : List α) (n : Nat) (d₁ d₂ : α)
    (h : n < l.length) : l.getD n d₁ = l.getD n d₂ := by
  simp [List.getD_eq_getElem?_getD, List.getElem?_eq_getElem h]

theorem cons_getD_length {α : Type} (l : List α) (a d : α) :
    (a :: l).getD l.length d = l.getLastD a := by
  induction l generalizing a with
  | nil => rfl
  | cons x xs ih =>
    rw [List.getLastD_cons]
    simpa using ih x

theorem pushBuf_spec {α : Type} (s : HistState α) (b : α)
    (h : s.historyIndex < s.history.length) :
    pushBuf s b =
      ⟨s.history.take (s.historyIndex + 1) ++ [b], s.historyIndex + 1, b⟩ := by
  have hlen : (s.history.take (s.historyIndex + 1)).length = s.historyIndex + 1 := by
    simp [List.length_take]
    omega
  simp [pushBuf, saveToHistory, hlen]

theorem pushAll_cons_spec {α : Type} (bs : List α) :
    ∀ (b : α) (s : HistState α), s.historyIndex < s.history.length →
    pushAll s (b :: bs) =
      ⟨s.history.take (s.historyIndex + 1) ++ b :: bs,
       s.historyIndex + 1 + bs.length,
       bs.getLastD b⟩ := by
  induction bs with
  | nil =>
    intro b s h
    simpa [pushAll] using pushBuf_spec s b h
  | cons b' bs' ih =>
    intro b s h
    have hstep : pushAll s (b :: b' :: bs') = pushAll (pushBuf s b) (b' :: bs') := by
      simp [pushAll]
    have hwf : ((⟨s.history.take (s.historyIndex + 1) ++ [b],
        s.historyIndex + 1, b⟩ : HistState α)).historyIndex <
        ((⟨s.history.take (s.historyIndex + 1) ++ [b],
        s.historyIndex + 1, b⟩ : HistState α)).history.length := by
      simp only [List.length_append, List.length_take, List.length_singleton]
      omega
    rw [hstep, pushBuf_spec s b h, ih b' _ hwf]
    have hlen : (s.history.take (s.historyIndex + 1) ++ [b]).length
        = s.historyIndex + 1 + 1 := by
      simp [List.length_take]
      omega
    have htake : (s.history.take (s.historyIndex + 1) ++ [b]).take
        (s.historyIndex + 1 + 1) = s.history.take (s.historyIndex + 1) ++ [b] := by
      exact List.take_of_length_le (le_of_eq hlen)
    simp only [htake, HistState.mk.injEq, List.getLastD_cons, List.append_assoc,
      List.singleton_append, List.length_cons]
    refine ⟨trivial, by omega, trivial⟩

theorem undo_iter_spec {α : Type} (u : Nat) :
    ∀ (s : HistState α), u ≤ s.historyIndex →
    s.historyIndex < s.history.length →
    s.history.getD s.historyIndex s.canvas = s.canvas →
    (handleUndo^[u]) s =
      ⟨s.history, s.historyIndex - u,
       s.history.getD (s.historyIndex - u) s.canvas⟩ := by
  induction u with
  | zero =>
    intro s _ _ hinv
    simp only [Function.iterate_zero_apply, Nat.sub_zero]
    rw [hinv]
  | succ u ih =>
    intro s hu hwf hinv
    rw [Function.iterate_succ_apply']
    rw [ih s (by omega) hwf hinv]
    have hpos : 0 < s.historyIndex - u := by omega
    have h1 : s.historyIndex - u - 1 = s.historyIndex - (u + 1) := by omega
    have h2 : s.historyIndex - (u + 1) < s.history.length := by omega
    simp only [handleUndo]
    rw [if_pos hpos, h1,
      getD_default_irrel s.history (s.historyIndex - (u + 1))
        (s.history.getD (s.historyIndex - u) s.canvas) s.canvas h2]

theorem redo_iter_spec {α : Type} (r : Nat) :
    ∀ (s : HistState α), s.historyIndex + r < s.history.length →
    s.history.getD s.historyIndex s.canvas = s.canvas →
    (handleRedo^[r]) s =
      ⟨s.history, s.historyIndex + r,
       s.history.getD (s.historyIndex + r) s.canvas⟩ := by
  induction r with
  | zero =>
    intro s _ hinv
    simp only [Function.iterate_zero_apply, Nat.add_zero]
    rw [hinv]
  | succ r ih =>
    intro s hr hinv
    rw [Function.iterate_succ_apply']
    rw [ih s (by omega) hinv]
    have hguard : s.historyIndex + r < s.history.length - 1 := by omega
    have h2 : s.historyIndex + (r + 1) < s.history.length := by omega
    simp only [handleRedo]
    rw [if_pos hguard]
    have h3 : s.historyIndex + r + 1 = s.historyIndex + (r + 1) := by omega
    rw [h3,
      getD_default_irrel s.history (s.historyIndex + (r + 1))
        (s.history.getD (s.historyIndex + r) s.canvas) s.canvas h2]

/-- C2: starting from any loaded history state (valid cursor), after N
pushes, then U undos (U ≤ N), then R redos (R ≤ U), the buffer visible on
the working surface is the pushed entry at index N-1-U+R among the N
pushed buffers (written `N + R - U - 1` in truncated natural arithmetic;
the hypothesis `U < N + R` states exactly that this index exists among
the pushed entries, which the claim presupposes by referring to it). -/
theorem pushUndoRedo_visible {α : Type} (s : HistState α) (bs : List α) (U R : Nat)
    (hwf : s.historyIndex < s.history.length)
    (hU : U ≤ bs.length) (hR : R ≤ U) (hUR : U < bs.length + R) :
    ((handleRedo^[R]) ((handleUndo^[U]) (pushAll s bs))).canvas
      = bs.getD (bs.length + R - U - 1) s.canvas := by
  cases bs with
  | nil =>
    simp only [List.length_nil, Nat.zero_add] at hU hUR
    omega
  | cons b bs' =>
    simp only [List.length_cons] at hU hUR
    have hT : (s.history.take (s.historyIndex + 1)).length = s.historyIndex + 1 := by
      simp [List.length_take]; omega
    have hlen : (s.history.take (s.historyIndex + 1) ++ b :: bs').length
        = s.historyIndex + 1 + bs'.length + 1 := by
      simp [hT]; omega
    rw [pushAll_cons_spec bs' b s hwf]
    have hinvp : (s.history.take (s.historyIndex + 1) ++ b :: bs').getD
        (s.historyIndex + 1 + bs'.length) (bs'.getLastD b) = bs'.getLastD b := by
      rw [List.getD_append_right _ _ _ _ (by omega)]
      have hi : s.historyIndex + 1 + bs'.length
          - (s.history.take (s.historyIndex + 1)).length = bs'.length := by omega
      rw [hi, cons_getD_length]
    rw [undo_iter_spec U
      ⟨s.history.take (s.historyIndex + 1) ++ b :: bs',
       s.historyIndex + 1 + bs'.length, bs'.getLastD b⟩
      (by show U ≤ s.historyIndex + 1 + bs'.length; omega)
      (by show s.historyIndex + 1 + bs'.length
            < (s.history.take (s.historyIndex + 1) ++ b :: bs').length; omega)
      hinvp]
    have hinvq : (s.history.take (s.historyIndex + 1) ++ b :: bs').getD
        (s.historyIndex + 1 + bs'.length - U)
        ((s.history.take (s.historyIndex + 1) ++ b :: bs').getD
          (s.historyIndex + 1 + bs'.length - U) (bs'.getLastD b))
        = (s.history.take (s.historyIndex + 1) ++ b :: bs').getD
          (s.historyIndex + 1 + bs'.length - U) (bs'.getLastD b) :=
      getD_default_irrel _ _ _ _ (by omega)
    rw [redo_iter_spec R
      ⟨s.history.take (s.historyIndex + 1) ++ b :: bs',
       s.historyIndex + 1 + bs'.length - U,
       (s.history.take (s.historyIndex + 1) ++ b :: bs').getD
         (s.historyIndex + 1 + bs'.length - U) (bs'.getLastD b)⟩
      (by show s.historyIndex + 1 + bs'.length - U + R
            < (s.history.take (s.historyIndex + 1) ++ b :: bs').length; omega)
      hinvq]
    show (s.history.take (s.historyIndex + 1) ++ b :: bs').getD
        (s.historyIndex + 1 + bs'.length - U + R) _
      = (b :: bs').getD ((b :: bs').length + R - U - 1) s.canvas
    rw [List.getD_append_right _ _ _ _ (by omega)]
    have hi2 : s.historyIndex + 1 + bs'.length - U + R
        - (s.history.take (s.historyIndex + 1)).length
        = (b :: bs').length + R - U - 1 := by
      simp only [List.length_cons]
      omega
    rw [hi2]
    exact getD_default_irrel _ _ _ _ (by simp only [List.length_cons]; omega)

/-- Witness for C2: initial loaded history `[10]`, three pushes `1,2,3`,
two undos, one redo: the visible buffer is pushed entry index
`3-1-2+1 = 1`, namely `2`. -/
theorem pushUndoRedo_visible_witness :
    ((handleRedo^[1]) ((handleUndo^[2])
        (pushAll (⟨[10], 0, 10⟩ : HistState Nat) [1, 2, 3]))).canvas
      = [1, 2, 3].getD ([1, 2, 3].length + 1 - 2 - 1) 10 :=
  pushUndoRedo_visible ⟨[10], 0, 10⟩ [1, 2, 3] 2 1
    (by decide) (by decide) (by decide) (by decide)

/-- C3: `saveToHistory` appends the snapshot right after the cursor,
discarding all entries beyond the cursor, and the cursor moves to the new
tail; in particular pushing buffer `b` after two undos on a loaded
5-entry history yields the 4-entry history `[e0, e1, e2, b]` whose tail
is the pushed snapshot, with the cursor on it. -/
theorem saveToHistory_spec {α : Type} (s : HistState α) (e0 e1 e2 e3 e4 b : α) :
    (saveToHistory s).history = s.history.take (s.historyIndex + 1) ++ [s.canvas] ∧
    (saveToHistory s).historyIndex + 1 = (saveToHistory s).history.length ∧
    pushBuf ((handleUndo^[2]) ⟨[e0, e1, e2, e3, e4], 4, e4⟩) b
      = ⟨[e0, e1, e2, b], 3, b⟩ := by
  refine ⟨rfl, ?_, ?_⟩
  · simp only [saveToHistory, List.length_append, List.length_take,
      List.length_singleton]
    omega
  · rfl

/-- C7: undo at cursor 0 and redo at the last index are no-ops that leave
the whole history state (cursor, history, visible canvas) unchanged, and
`canUndo`/`canRedo` are exactly the cursor-bound tests. -/
theorem undoRedo_bounds {α : Type} (s : HistState α) :
    (s.historyIndex = 0 → handleUndo s = s) ∧
    (s.historyIndex = s.history.length - 1 → handleRedo s = s) ∧
    (canUndo s = true ↔ 0 < s.historyIndex) ∧
    (canRedo s = true ↔ s.historyIndex < s.history.length - 1) := by
  refine ⟨?_, ?_, ?_, ?_⟩
  · intro h
    simp [handleUndo, h]
  · intro h
    have : ¬ s.historyIndex < s.history.length - 1 := by omega
    simp [handleRedo, this]
  · simp [canUndo]
  · simp [canRedo]

/-- Witness for C7 at a single-entry history: both bound no-ops fire and
both enablement flags are false. -/
theorem undoRedo_bounds_witness :
    handleUndo (⟨[7], 0, 7⟩ : HistState Nat) = ⟨[7], 0, 7⟩ ∧
    handleRedo (⟨[7], 0, 7⟩ : HistState Nat) = ⟨[7], 0, 7⟩ ∧
    (canUndo (⟨[7], 0, 7⟩ : HistState Nat) = true ↔ 0 < 0) ∧
    (canRedo (⟨[7], 0, 7⟩ : HistState Nat) = true ↔ 0 < 0) :=
  ⟨(undoRedo_bounds ⟨[7], 0, 7⟩).1 rfl,
   (undoRedo_bounds ⟨[7], 0, 7⟩).2.1 rfl,
   (undoRedo_bounds ⟨[7], 0, 7⟩).2.2.1,
   (undoRedo_bounds ⟨[7], 0, 7⟩).2.2.2⟩

/-- getCropHandle from `ImageEditor.tsx` lines 188-200: the priority
chain of eight open-square hit tests, each bounded by `±HANDLE_SIZE`
around the handle's rectangle feature. -/
def getCropHandle (pos : Pt) (rect : CropRect) : Option String :=
  let x := rect.x
  let y := rect.y
  let width := rect.width
  let height := rect.height
  let hs := HANDLE_SIZE
  if pos.x > x + width - hs ∧ pos.x < x + width + hs ∧
      pos.y > y + height - hs ∧ pos.y < y + height + hs then some ("br")
  else if pos.x > x - hs ∧ pos.x < x + hs ∧
      pos.y > y - hs ∧ pos.y < y + hs then some ("tl")
  else if pos.x > x + width - hs ∧ pos.x < x + width + hs ∧
      pos.y > y - hs ∧ pos.y < y + hs then some ("tr")
  else if pos.x > x - hs ∧ pos.x < x + hs ∧
      pos.y > y + height - hs ∧ pos.y < y + height + hs then some ("bl")
  else if pos.x > x + width / 2 - hs ∧ pos.x < x + width / 2 + hs ∧
      pos.y > y - hs ∧ pos.y < y + hs then some ("tm")
  else if pos.x > x + width / 2 - hs ∧ pos.x < x + width / 2 + hs ∧
      pos.y > y + height - hs ∧ pos.y < y + height + hs then some ("bm")
  else if pos.x > x - hs ∧ pos.x < x + hs ∧
      pos.y > y + height / 2 - hs ∧ pos.y < y + height / 2 + hs then some ("ml")
  else if pos.x > x + width - hs ∧ pos.x < x + width + hs ∧
      pos.y > y + height / 2 - hs ∧ pos.y < y + height / 2 + hs then some ("mr")
  else none

/-- handleCropMouseDown from `ImageEditor.tsx` lines 210-227, restricted
to the crop-mode path that builds the new CropAction (the early return
when not in crop mode is handled by the caller in the source). -/
def handleCropMouseDown (pos : Pt) (cropRect : Option CropRect) : CropAction :=
  match cropRect with
  | some rect =>
    match getCropHandle pos rect with
    | some h => ⟨"resizing", some h, pos.x, pos.y, some rect⟩
    | none =>
      if pos.x > rect.x ∧ pos.x < rect.x + rect.width ∧
          pos.y > rect.y ∧ pos.y < rect.y + rect.height then
        ⟨"moving", none, pos.x, pos.y, some rect⟩
      else ⟨"drawing", none, pos.x, pos.y, none⟩
  | none => ⟨"drawing", none, pos.x, pos.y, none⟩

/-- The raw field edits of the resizing branch, `ImageEditor.tsx` lines
272-275: each of the four sequential `if handle.includes(c)` mutations of
x/width/y/height, applied to the anchor-time snapshot. -/
def rawResize (h : String) (sr : CropRect) (dx dy : Rat) : CropRect :=
  let x := sr.x
  let y := sr.y
  let width := sr.width
  let height := sr.height
  let x := if h.data.contains 'l' then x + dx else x
  let width := if h.data.contains 'l' then width - dx else width
  let width := if h.data.contains 'r' then width + dx else width
  let y := if h.data.contains 't' then y + dy else y
  let height := if h.data.contains 't' then height - dy else height
  let height := if h.data.contains 'b' then height + dy else height
  ⟨x, y, width, height⟩

/-- The negative-size normalization of `ImageEditor.tsx` lines 277-278:
a negative width or height flips the corresponding origin coordinate. -/
def normalizeRect (r : CropRect) : CropRect :=
  let x := if r.width < 0 then r.x + r.width else r.x
  let width := if r.width < 0 then -r.width else r.width
  let y := if r.height < 0 then r.y + r.height else r.y
  let height := if r.height < 0 then -r.height else r.height
  ⟨x, y, width, height⟩

/-- The cropRect update performed by handleCropMouseMove
(`ImageEditor.tsx` lines 251-281) for an active CropAction in crop mode;
the function returns the new value of the cropRect state (the cursor
styling updates of lines 235-248 have no effect on any claim). -/
def handleCropMouseMove (pos : Pt) (act : CropAction)
    (cropRect : Option CropRect) : Option CropRect :=
  if act.type = ("drawing") then
    some ⟨min pos.x act.startX, min pos.y act.startY,
          |pos.x - act.startX|, |pos.y - act.startY|⟩
  else if act.type = ("moving") then
    match act.startRect with
    | some sr =>
      some { sr with x := sr.x + (pos.x - act.startX),
                     y := sr.y + (pos.y - act.startY) }
    | none => cropRect
  else if act.type = ("resizing") then
    match act.startRect, act.handle with
    | some sr, some h =>
      some (normalizeRect (rawResize h sr (pos.x - act.startX) (pos.y - act.startY)))
    | _, _ => cropRect
  else cropRect

/-- Modelled from the spec's words for C4: the point lies in the square
of the given side centered at `c` (the claim's notion of a handle's hit
region; the bounds are strict, matching the strict comparisons of the
code). -/
def inSquare (side : Rat) (c p : Pt) : Prop :=
  |p.x - c.x| < side / 2 ∧ |p.y - c.y| < side / 2

instance (side : Rat) (c p : Pt) : Decidable (inSquare side c p) :=
  inferInstanceAs (Decidable (_ ∧ _))

/-- The eight handle features of a crop rectangle, in the order tested by
getCropHandle: br, tl, tr, bl, tm, bm, ml, mr (corners, then edge
midpoints). -/
def handleFeatures (r : CropRect) : List Pt :=
  [⟨r.x + r.width, r.y + r.height⟩, ⟨r.x, r.y⟩,
   ⟨r.x + r.width, r.y⟩, ⟨r.x, r.y + r.height⟩,
   ⟨r.x + r.width / 2, r.y⟩, ⟨r.x + r.width / 2, r.y + r.height⟩,
   ⟨r.x, r.y + r.height / 2⟩, ⟨r.x + r.width, r.y + r.height / 2⟩]

/-- The strict rectangle-body test of `ImageEditor.tsx` line 221. -/
def strictlyInside (p : Pt) (r : CropRect) : Prop :=
  p.x > r.x ∧ p.x < r.x + r.width ∧ p.y > r.y ∧ p.y < r.y + r.height

instance (p : Pt) (r : CropRect) : Decidable (strictlyInside p r) :=
  inferInstanceAs (Decidable (_ ∧ _ ∧ _ ∧ _))

theorem inSquare_iff (c p : Pt) :
    inSquare (2 * HANDLE_SIZE) c p ↔
      (p.x > c.x - HANDLE_SIZE ∧ p.x < c.x + HANDLE_SIZE ∧
       p.y > c.y - HANDLE_SIZE ∧ p.y < c.y + HANDLE_SIZE) := by
  have h2 : (2 : Rat) * HANDLE_SIZE / 2 = HANDLE_SIZE := by norm_num
  constructor
  · rintro ⟨hx, hy⟩
    rw [h2, abs_sub_lt_iff] at hx hy
    refine ⟨by linarith [hx.2], by linarith [hx.1], by linarith [hy.2], by linarith [hy.1]⟩
  · rintro ⟨h1, h3, h4, h5⟩
    refine ⟨?_, ?_⟩ <;> rw [h2, abs_sub_lt_iff] <;> constructor <;> linarith

/-- C4 counterexample: on rect `{x:0,y:0,w:100,h:100}`, the point
`(107,107)` lies in no square of side HANDLE_SIZE centered on a handle
feature and is not inside the body, so per the claim it would start a
fresh drawing action; the code classifies it as handle `br` and starts a
resizing action (its hit squares have side `2 * HANDLE_SIZE`). -/
theorem getCropHandle_side_counterexample :
    (¬ ∃ c ∈ handleFeatures ⟨0, 0, 100, 100⟩,
        inSquare HANDLE_SIZE c ⟨107, 107⟩) ∧
    ¬ strictlyInside ⟨107, 107⟩ ⟨0, 0, 100, 100⟩ ∧
    getCropHandle ⟨107, 107⟩ ⟨0, 0, 100, 100⟩ = some ("br") ∧
    (handleCropMouseDown ⟨107, 107⟩ (some ⟨0, 0, 100, 100⟩)).type
      = ("resizing") := by
  refine ⟨?_, ?_, ?_, ?_⟩
  · norm_num [handleFeatures, inSquare, HANDLE_SIZE, List.exists_mem_cons_iff]
  · norm_num [strictlyInside]
  · norm_num [getCropHandle, HANDLE_SIZE]
  · norm_num [handleCropMouseDown, getCropHandle, HANDLE_SIZE]

/-- C4 (amended): hit-testing classifies a point as one of the eight
handles exactly when it lies in the open square of side `2 * HANDLE_SIZE`
(not HANDLE_SIZE) centered on that handle's rectangle feature; a point in
none of those squares but strictly inside the rectangle body starts a
moving action, and any other such point starts a fresh drawing action. -/
theorem getCropHandle_classification (pos : Pt) (rect : CropRect) :
    ((getCropHandle pos rect).isSome = true ↔
      ∃ c ∈ handleFeatures rect, inSquare (2 * HANDLE_SIZE) c pos) ∧
    ((¬ ∃ c ∈ handleFeatures rect, inSquare (2 * HANDLE_SIZE) c pos) →
      (strictlyInside pos rect →
        (handleCropMouseDown pos (some rect)).type = ("moving")) ∧
      (¬ strictlyInside pos rect →
        (handleCropMouseDown pos (some rect)).type = ("drawing"))) := by
  have key : (getCropHandle pos rect).isSome = true ↔
      ∃ c ∈ handleFeatures rect, inSquare (2 * HANDLE_SIZE) c pos := by
    simp only [getCropHandle]
    split_ifs with h1 h2 h3 h4 h5 h6 h7 h8
    · simp only [Option.isSome_some, true_iff]
      exact ⟨⟨rect.x + rect.width, rect.y + rect.height⟩,
        by simp [handleFeatures], (inSquare_iff _ _).2 h1⟩
    · simp only [Option.isSome_some, true_iff]
      exact ⟨⟨rect.x, rect.y⟩, by simp [handleFeatures], (inSquare_iff _ _).2 h2⟩
    · simp only [Option.isSome_some, true_iff]
      exact ⟨⟨rect.x + rect.width, rect.y⟩,
        by simp [handleFeatures], (inSquare_iff _ _).2 h3⟩
    · simp only [Option.isSome_some, true_iff]
      exact ⟨⟨rect.x, rect.y + rect.height⟩,
        by simp [handleFeatures], (inSquare_iff _ _).2 h4⟩
    · simp only [Option.isSome_some, true_iff]
      exact ⟨⟨rect.x + rect.width / 2, rect.y⟩,
        by simp [handleFeatures], (inSquare_iff _ _).2 h5⟩
    · simp only [Option.isSome_some, true_iff]
      exact ⟨⟨rect.x + rect.width / 2, rect.y + rect.height⟩,
        by simp [handleFeatures], (inSquare_iff _ _).2 h6⟩
    · simp only [Option.isSome_some, true_iff]
      exact ⟨⟨rect.x, rect.y + rect.height / 2⟩,
        by simp [handleFeatures], (inSquare_iff _ _).2 h7⟩
    · simp only [Option.isSome_some, true_iff]
      exact ⟨⟨rect.x + rect.width, rect.y + rect.height / 2⟩,
        by simp [handleFeatures], (inSquare_iff _ _).2 h8⟩
    · simp only [Option.isSome_none, Bool.false_eq_true, false_iff]
      rintro ⟨c, hc, hsq⟩
      rw [inSquare_iff] at hsq
      simp only [handleFeatures, List.mem_cons, List.not_mem_nil, or_false] at hc
      rcases hc with rfl | rfl | rfl | rfl | rfl | rfl | rfl | rfl
      · exact h1 hsq
      · exact h2 hsq
      · exact h3 hsq
      · exact h4 hsq
      · exact h5 hsq
      · exact h6 hsq
      · exact h7 hsq
      · exact h8 hsq
  refine ⟨key, fun hno => ?_⟩
  have hnone : getCropHandle pos rect = none :=
    Option.not_isSome_iff_eq_none.mp (fun hs => hno (key.mp hs))
  constructor
  · intro hin
    have hin' : pos.x > rect.x ∧ pos.x < rect.x + rect.width ∧
        pos.y > rect.y ∧ pos.y < rect.y + rect.height := hin
    simp [handleCropMouseDown, hnone, hin']
  · intro hout
    have hout' : ¬ (pos.x > rect.x ∧ pos.x < rect.x + rect.width ∧
        pos.y > rect.y ∧ pos.y < rect.y + rect.height) := hout
    simp [handleCropMouseDown, hnone, hout']

/-- Witness for the amended C4: in rect `{0,0,100,100}` the point
`(50,50)` sits in no handle hit square and strictly inside the body, so
pointer-down starts a moving action. -/
theorem getCropHandle_classification_witness :
    (handleCropMouseDown ⟨50, 50⟩ (some ⟨0, 0, 100, 100⟩)).type = ("moving") :=
  ((getCropHandle_classification ⟨50, 50⟩ ⟨0, 0, 100, 100⟩).2
    (by norm_num [handleFeatures, inSquare, HANDLE_SIZE, List.exists_mem_cons_iff])).1
    (by norm_num [strictlyInside])

/-- C5: resizing applies each handle's deltas only to the fields whose
edges the handle identifier touches, on the anchor-time snapshot, and
then normalizes negative width/height by flipping the origin; the two
concrete examples of the claim hold: `br` with delta (+20,-5) on
`{10,10,50,50}` gives `{10,10,70,45}` and `tl` gives `{30,5,30,55}`. -/
theorem resize_spec (h : String) (sr : CropRect) (dx dy : Rat)
    (sx sy : Rat) (pos : Pt) (cur : Option CropRect) :
    (handleCropMouseMove pos ⟨"resizing", some h, sx, sy, some sr⟩ cur
      = some (normalizeRect (rawResize h sr (pos.x - sx) (pos.y - sy)))) ∧
    (h.data.contains 'l' = false → (rawResize h sr dx dy).x = sr.x) ∧
    (h.data.contains 't' = false → (rawResize h sr dx dy).y = sr.y) ∧
    (h.data.contains 'l' = false → h.data.contains 'r' = false →
      (rawResize h sr dx dy).width = sr.width) ∧
    (h.data.contains 't' = false → h.data.contains 'b' = false →
      (rawResize h sr dx dy).height = sr.height) ∧
    ((rawResize h sr dx dy).width < 0 →
      (normalizeRect (rawResize h sr dx dy)).x
          = (rawResize h sr dx dy).x + (rawResize h sr dx dy).width ∧
      (normalizeRect (rawResize h sr dx dy)).width
          = -(rawResize h sr dx dy).width) ∧
    ((rawResize h sr dx dy).height < 0 →
      (normalizeRect (rawResize h sr dx dy)).y
          = (rawResize h sr dx dy).y + (rawResize h sr dx dy).height ∧
      (normalizeRect (rawResize h sr dx dy)).height
          = -(rawResize h sr dx dy).height) ∧
    handleCropMouseMove ⟨20, -5⟩ ⟨"resizing", some ("br"), 0, 0, some ⟨10, 10, 50, 50⟩⟩ none
      = some ⟨10, 10, 70, 45⟩ ∧
    handleCropMouseMove ⟨20, -5⟩ ⟨"resizing", some ("tl"), 0, 0, some ⟨10, 10, 50, 50⟩⟩ none
      = some ⟨30, 5, 30, 55⟩ := by
  refine ⟨by simp [handleCropMouseMove], ?_, ?_, ?_, ?_, ?_, ?_, ?_, ?_⟩
  · intro hl
    simp only [rawResize]
    rw [hl]
    simp
  · intro ht
    simp only [rawResize]
    rw [ht]
    simp
  · intro hl hr
    simp only [rawResize]
    rw [hl, hr]
    simp
  · intro ht hb
    simp only [rawResize]
    rw [ht, hb]
    simp
  · intro hw
    simp [normalizeRect, hw]
  · intro hh
    simp [normalizeRect, hh]
  · simp only [handleCropMouseMove, rawResize, normalizeRect,
      show ("br".data.contains 'l') = false from by decide,
      show ("br".data.contains 'r') = true from by decide,
      show ("br".data.contains 't') = false from by decide,
      show ("br".data.contains 'b') = true from by decide]
    norm_num
    rw [if_neg (by decide), if_neg (by decide)]
  · simp only [handleCropMouseMove, rawResize, normalizeRect,
      show ("tl".data.contains 'l') = true from by decide,
      show ("tl".data.contains 'r') = false from by decide,
      show ("tl".data.contains 't') = true from by decide,
      show ("tl".data.contains 'b') = false from by decide]
    norm_num
    rw [if_neg (by decide), if_neg (by decide)]

/-- Witness for C5: the handle string `"x"` touches no edge and the
snapshot `{0,0,-1,-2}` has negative raw width and height, so every
hypothesis of the general parts is dischargeable at one input. -/
theorem resize_spec_witness :
    (rawResize "x" ⟨0, 0, -1, -2⟩ 3 4).x = 0 ∧
    (rawResize "x" ⟨0, 0, -1, -2⟩ 3 4).y = 0 ∧
    (rawResize "x" ⟨0, 0, -1, -2⟩ 3 4).width = -1 ∧
    (rawResize "x" ⟨0, 0, -1, -2⟩ 3 4).height = -2 ∧
    (normalizeRect (rawResize "x" ⟨0, 0, -1, -2⟩ 3 4)).x
        = (rawResize "x" ⟨0, 0, -1, -2⟩ 3 4).x
          + (rawResize "x" ⟨0, 0, -1, -2⟩ 3 4).width ∧
    (normalizeRect (rawResize "x" ⟨0, 0, -1, -2⟩ 3 4)).width
        = -(rawResize "x" ⟨0, 0, -1, -2⟩ 3 4).width := by
  have h := resize_spec "x" ⟨0, 0, -1, -2⟩ 3 4 0 0 ⟨3, 4⟩ none
  have hl : ("x".data.contains 'l') = false := by decide
  have hr : ("x".data.contains 'r') = false := by decide
  have ht : ("x".data.contains 't') = false := by decide
  have hb : ("x".data.contains 'b') = false := by decide
  have hraw : rawResize "x" ⟨0, 0, -1, -2⟩ 3 4 = ⟨0, 0, -1, -2⟩ := by
    simp [rawResize, hl, hr, ht, hb]
  refine ⟨h.2.1 hl, h.2.2.1 ht, h.2.2.2.1 hl hr, h.2.2.2.2.1 ht hb,
    (h.2.2.2.2.2.1 (by rw [hraw]; norm_num)).1,
    (h.2.2.2.2.2.1 (by rw [hraw]; norm_num)).2⟩

/-- C6: during a drawing action anchored at `(ax, ay)`, pointer-move
recomputes the crop rectangle as the axis-aligned box between the anchor
and the current point: min-corner origin, absolute width/height, and the
far corner is the componentwise max, in all four drag directions;
dragging from (100,100) to (40,40) yields `{x:40,y:40,w:60,h:60}`. -/
theorem drawing_box_spec (ax ay : Rat) (pos : Pt) (cur : Option CropRect) :
    handleCropMouseMove pos ⟨"drawing", none, ax, ay, none⟩ cur
      = some ⟨min pos.x ax, min pos.y ay, |pos.x - ax|, |pos.y - ay|⟩ ∧
    min pos.x ax + |pos.x - ax| = max pos.x ax ∧
    min pos.y ay + |pos.y - ay| = max pos.y ay ∧
    handleCropMouseMove ⟨40, 40⟩ ⟨"drawing", none, 100, 100, none⟩ none
      = some ⟨40, 40, 60, 60⟩ := by
  refine ⟨by simp [handleCropMouseMove], ?_, ?_, by norm_num [handleCropMouseMove]⟩
  · rcases le_total pos.x ax with hle | hle
    · rw [min_eq_left hle, max_eq_right hle, abs_of_nonpos (by linarith)]
      ring
    · rw [min_eq_right hle, max_eq_left hle, abs_of_nonneg (by linarith)]
      ring
  · rcases le_total pos.y ay with hle | hle
    · rw [min_eq_left hle, max_eq_right hle, abs_of_nonpos (by linarith)]
      ring
    · rw [min_eq_right hle, max_eq_left hle, abs_of_nonneg (by linarith)]
      ring

/-- Squared distance between two points. -/
def distSq (a b : Pt) : Rat :=
  (a.x - b.x) ^ 2 + (a.y - b.y) ^ 2

/-- Squared distance from point `q` to the segment `p0 p1` (closest-point
projection clamped to the segment). -/
def segDistSq (p0 p1 q : Pt) : Rat :=
  let dx := p1.x - p0.x
  let dy := p1.y - p0.y
  let len2 := dx ^ 2 + dy ^ 2
  if len2 = 0 then distSq q p0
  else
    let t := ((q.x - p0.x) * dx + (q.y - p0.y) * dy) / len2
    let tc := max 0 (min 1 t)
    distSq q ⟨p0.x + tc * dx, p0.y + tc * dy⟩

/-- Whether the pixel at `q` is under the round-capped, round-joined
stroke of width `size` between `p0` and `p1` (`ctx.lineWidth`,
`lineCap/lineJoin = round` of `drawLine`, lines 139-145): the idealised
coverage of a stroked segment is the set of points within `size / 2` of
the segment. -/
def strokeCovers (size : Rat) (p0 p1 q : Pt) : Bool :=
  decide (segDistSq p0 p1 q ≤ (size / 2) ^ 2)

/-- Source-over compositing of a source pixel onto a destination pixel
(byte channels, straight alpha; used by the restore branch's
`drawImage`). -/
def sourceOverPx (src dst : Pixel) : Pixel :=
  let outA := src.a + dst.a * (255 - src.a) / 255
  ⟨(src.r * src.a + dst.r * dst.a * (255 - src.a) / 255) / max outA 1,
   (src.g * src.a + dst.g * dst.a * (255 - src.a) / 255) / max outA 1,
   (src.b * src.a + dst.b * dst.a * (255 - src.a) / 255) / max outA 1,
   outA⟩

/-- drawLine from `ImageEditor.tsx` lines 131-157, per pixel.  Restore
with no original reference returns early (line 137).  Erase strokes with
`globalCompositeOperation = destination-out` and a fully opaque stroke
color, which clears every covered pixel.  Restore clips to the stroke and
draws the original image over the canvas inside the clip.  In crop mode
neither branch strokes, leaving the canvas untouched. -/
def drawLine (mode : EditMode) (orig : Option Image) (size : Rat)
    (p0 p1 : Pt) (canvas : Image) : Image :=
  match mode, orig with
  | EditMode.restore, none => canvas
  | EditMode.erase, _ =>
    { canvas with pix := fun x y =>
        if strokeCovers size p0 p1 ⟨(x : Rat), (y : Rat)⟩ then Pixel.clear
        else canvas.pix x y }
  | EditMode.restore, some o =>
    { canvas with pix := fun x y =>
        if strokeCovers size p0 p1 ⟨(x : Rat), (y : Rat)⟩ then
          sourceOverPx (o.pix x y) (canvas.pix x y)
        else canvas.pix x y }
  | EditMode.crop, _ => canvas

/-- C8: a stroke segment drawn in Restore mode with no original
reference buffer available leaves the working buffer pixel-identical and
raises no error: `drawLine` returns the canvas unchanged (the early
return of line 137). -/
theorem restore_without_original_noop (size : Rat) (p0 p1 : Pt) (canvas : Image) :
    drawLine EditMode.restore none size p0 p1 canvas = canvas := rfl

/-- C9: erasing never increases any pixel's alpha, erasing the same
segment a second time yields alpha at most the alpha after the first
erase, and an already-transparent pixel stays at alpha zero. -/
theorem erase_alpha_monotone (orig : Option Image) (size : Rat)
    (p0 p1 : Pt) (canvas : Image) (x y : Nat) :
    ((drawLine EditMode.erase orig size p0 p1 canvas).pix x y).a
        ≤ ((canvas.pix x y)).a ∧
    ((drawLine EditMode.erase orig size p0 p1
        (drawLine EditMode.erase orig size p0 p1 canvas)).pix x y).a
        ≤ ((drawLine EditMode.erase orig size p0 p1 canvas).pix x y).a ∧
    (((canvas.pix x y)).a = 0 →
      ((drawLine EditMode.erase orig size p0 p1 canvas).pix x y).a = 0) := by
  refine ⟨?_, ?_, ?_⟩
  · simp only [drawLine]
    split
    · exact Nat.zero_le _
    · exact le_refl _
  · simp only [drawLine]
    split
    · exact Nat.zero_le _
    · exact le_refl _
  · intro h0
    simp only [drawLine]
    split
    · rfl
    · exact h0

/-- Witness for C9 at a concrete transparent 1×1 buffer and a point
stroke: the already-transparent pixel keeps alpha zero and both
monotonicity bounds hold. -/
theorem erase_alpha_monotone_witness :
    ((drawLine EditMode.erase none 2 ⟨0, 0⟩ ⟨0, 0⟩
        ⟨1, 1, fun _ _ => Pixel.clear⟩).pix 0 0).a
      ≤ (((⟨1, 1, fun _ _ => Pixel.clear⟩ : Image).pix 0 0)).a ∧
    ((drawLine EditMode.erase none 2 ⟨0, 0⟩ ⟨0, 0⟩
        (drawLine EditMode.erase none 2 ⟨0, 0⟩ ⟨0, 0⟩
          ⟨1, 1, fun _ _ => Pixel.clear⟩)).pix 0 0).a
      ≤ ((drawLine EditMode.erase none 2 ⟨0, 0⟩ ⟨0, 0⟩
          ⟨1, 1, fun _ _ => Pixel.clear⟩).pix 0 0).a ∧
    ((drawLine EditMode.erase none 2 ⟨0, 0⟩ ⟨0, 0⟩
        ⟨1, 1, fun _ _ => Pixel.clear⟩).pix 0 0).a = 0 :=
  ⟨(erase_alpha_monotone none 2 ⟨0, 0⟩ ⟨0, 0⟩ ⟨1, 1, fun _ _ => Pixel.clear⟩ 0 0).1,
   (erase_alpha_monotone none 2 ⟨0, 0⟩ ⟨0, 0⟩ ⟨1, 1, fun _ _ => Pixel.clear⟩ 0 0).2.1,
   (erase_alpha_monotone none 2 ⟨0, 0⟩ ⟨0, 0⟩ ⟨1, 1, fun _ _ => Pixel.clear⟩ 0 0).2.2 rfl⟩

/-- The full editor session state assembled by the component
(`ImageEditor.tsx` lines 24-34): edit mode, brush settings, the history
slice, the crop rectangle and action, the original reference image, and
the transient drawing refs. -/
structure EditorState where
  editMode : EditMode
  brushSize : Rat
  hist : HistState Image
  cropRect : Option CropRect
  cropAction : Option CropAction
  originalImg : Option Image
  isDrawing : Bool
  lastPoint : Option Pt

/-- startDrawing from `ImageEditor.tsx` lines 159-167: ignored in crop
mode; otherwise marks drawing, records the last point and draws the
zero-length segment at the pointer. -/
def startDrawing (pos : Pt) (s : EditorState) : EditorState :=
  if s.editMode = EditMode.crop then s
  else
    { s with
      isDrawing := true, lastPoint := some pos,
      hist := { s.hist with
                canvas := drawLine s.editMode s.originalImg s.brushSize pos pos s.hist.canvas } }

/-- draw from `ImageEditor.tsx` lines 169-177: ignored in crop mode or
when not drawing; otherwise strokes from the last point to the current
point and updates the last point. -/
def draw (pos : Pt) (s : EditorState) : EditorState :=
  if s.editMode = EditMode.crop then s
  else if s.isDrawing = false then s
  else
    match s.lastPoint with
    | some lp =>
      { s with
        lastPoint := some pos,
        hist := { s.hist with
                  canvas := drawLine s.editMode s.originalImg s.brushSize lp pos s.hist.canvas } }
    | none => s

/-- stopDrawing from `ImageEditor.tsx` lines 179-185: pushes one history
snapshot when a stroke was in progress (unconditionally on the stroke
having been started, not on pixels having changed), then clears the
drawing refs. -/
def stopDrawing (s : EditorState) : EditorState :=
  let s1 := if s.isDrawing then { s with hist := saveToHistory s.hist } else s
  { s1 with isDrawing := false, lastPoint := none }

/-- Truncation of a JavaScript number argument to an integer, as WebIDL
argument conversion performs for the canvas calls (truncation toward
zero; `Int.tdiv` by the positive denominator). -/
def ratTrunc (q : Rat) : Int := Int.tdiv q.num (q.den : Int)

/-- The HTML canvas `getImageData` semantics used by handleApplyCrop
(`ImageEditor.tsx` line 317): arguments are truncated to integers; a
zero source width or height throws `IndexSizeError`; a negative width or
height flips the rectangle; pixels requested outside the source canvas
read back as transparent black. -/
def getImageData (img : Image) (rx ry rw rh : Rat) : Except String Image :=
  let sx := ratTrunc rx
  let sy := ratTrunc ry
  let sw := ratTrunc rw
  let sh := ratTrunc rh
  if sw = 0 ∨ sh = 0 then Except.error ("IndexSizeError")
  else
    let sx := if sw < 0 then sx + sw else sx
    let sw := if sw < 0 then -sw else sw
    let sy := if sh < 0 then sy + sh else sy
    let sh := if sh < 0 then -sh else sh
    Except.ok
      { width := sw.toNat, height := sh.toNat,
        pix := fun x y =>
          let gx := sx + (x : Int)
          let gy := sy + (y : Int)
          if 0 ≤ gx ∧ gx < (img.width : Int) ∧ 0 ≤ gy ∧ gy < (img.height : Int) then
            img.pix gx.toNat gy.toNat
          else Pixel.clear }

/-- The temp-canvas crop of the original reference image
(`ImageEditor.tsx` lines 320-325): a buffer of the rectangle's truncated
dimensions sampling the original at the offset coordinates, transparent
outside it. -/
def cropOriginal (orig : Image) (r : CropRect) : Image :=
  { width := (ratTrunc r.width).toNat, height := (ratTrunc r.height).toNat,
    pix := fun x y =>
      let gx := ratTrunc r.x + (x : Int)
      let gy := ratTrunc r.y + (y : Int)
      if 0 ≤ gx ∧ gx < (orig.width : Int) ∧ 0 ≤ gy ∧ gy < (orig.height : Int) then
        orig.pix gx.toNat gy.toNat
      else Pixel.clear }

/-- handleApplyCrop from `ImageEditor.tsx` lines 310-341.  The early
guard returns the state unchanged when no crop rectangle or original
image is present.  Region extraction follows `getImageData` semantics: a
thrown `IndexSizeError` propagates out of the handler before any state
update (modelled as `Except.error`, the pre-call state untouched).
Otherwise the data-URL image loads and its `onload` callback replaces
the original reference, resizes the canvas to the cropped data, pushes
one history snapshot, clears the crop rectangle and exits to Erase
mode. -/
def handleApplyCrop (s : EditorState) : Except String EditorState :=
  match s.cropRect, s.originalImg with
  | some r, some orig =>
    match getImageData s.hist.canvas r.x r.y r.width r.height with
    | Except.error e => Except.error e
    | Except.ok croppedImageData =>
      Except.ok { s with
        originalImg := some (cropOriginal orig r),
        hist := saveToHistory { s.hist with canvas := croppedImageData },
        cropRect := none,
        editMode := EditMode.erase }
  | _, _ => Except.ok s

/-- Projections of the apply-crop result that are decidable at concrete
inputs: history length, cursor, edit mode and crop rectangle of the
post-state, or `none` when the call threw. -/
def applyCropResult (s : EditorState) : Option (Nat × Nat × EditMode × Option CropRect) :=
  match handleApplyCrop s with
  | Except.error _ => none
  | Except.ok t => some (t.hist.history.length, t.hist.historyIndex, t.editMode, t.cropRect)

/-- A 2×2 opaque test canvas. -/
def cexImg : Image := ⟨2, 2, fun _ _ => ⟨0, 0, 0, 255⟩⟩

/-- A crop-mode session whose rectangle `{x:1,y:1,w:2,h:2}` has positive
area but extends beyond the 2×2 canvas. -/
def cexCropState : EditorState :=
  ⟨EditMode.crop, 40, ⟨[cexImg], 0, cexImg⟩, some ⟨1, 1, 2, 2⟩,
   none, some cexImg, false, none⟩

/-- A crop-mode session on `cexImg` whose crop rectangle is the
degenerate `{x:0,y:0,w:0,h:0}`. -/
def zeroCropState : EditorState :=
  ⟨EditMode.crop, 40, ⟨[cexImg], 0, cexImg⟩, some ⟨0, 0, 0, 0⟩,
   none, some cexImg, false, none⟩

/-- C1 counterexample: applying the crop on `cexCropState`, whose
rectangle `{x:1,y:1,w:2,h:2}` has positive area but extends beyond the
2×2 canvas bounds, is not rejected: region extraction succeeds (padding
with transparent pixels), one history entry is pushed (length 2, cursor
1), the mode changes to Erase and the rectangle is cleared — contrary to
the claimed no-op. -/
theorem applyCrop_oob_counterexample :
    cexCropState.editMode = EditMode.crop ∧
    cexCropState.hist.canvas.width = 2 ∧
    cexCropState.hist.canvas.height = 2 ∧
    cexCropState.cropRect = some ⟨1, 1, 2, 2⟩ ∧
    cexCropState.hist.history.length = 1 ∧
    applyCropResult cexCropState = some (2, 1, EditMode.erase, none) := by
  refine ⟨rfl, rfl, rfl, rfl, rfl, ?_⟩
  rfl

/-- C1 (amended): apply-crop with a crop rectangle whose truncated width
or height is zero throws `IndexSizeError` at region extraction before
any state update, so the history receives no push, the mode remains
Crop, and the rectangle and both surfaces are unchanged (the pre-call
state is untouched); an out-of-bounds rectangle of positive area,
however, is applied with transparent padding (see the counterexample). -/
theorem applyCrop_zero_area_throws (s : EditorState) (r : CropRect) (o : Image)
    (hr : s.cropRect = some r) (ho : s.originalImg = some o)
    (hz : ratTrunc r.width = 0 ∨ ratTrunc r.height = 0) :
    handleApplyCrop s = Except.error ("IndexSizeError") := by
  simp only [handleApplyCrop, hr, ho, getImageData]
  rw [if_pos hz]

/-- Witness for the amended C1: the degenerate rectangle
`{x:0,y:0,w:0,h:0}` makes apply-crop throw. -/
theorem applyCrop_zero_area_throws_witness :
    handleApplyCrop zeroCropState = Except.error ("IndexSizeError") :=
  applyCrop_zero_area_throws zeroCropState ⟨0, 0, 0, 0⟩ cexImg rfl rfl
    (Or.inl (by decide))

theorem draw_restore_none_fields (p : Pt) (t : EditorState)
    (hmode : t.editMode = EditMode.restore) (horig : t.originalImg = none) :
    (draw p t).editMode = t.editMode ∧ (draw p t).originalImg = t.originalImg ∧
    (draw p t).isDrawing = t.isDrawing ∧ (draw p t).hist = t.hist := by
  have hnc : ¬ (t.editMode = EditMode.crop) := by rw [hmode]; simp
  have hdraw : draw p t = if t.isDrawing = false then t else
      (match t.lastPoint with
       | some lp =>
         { t with
           lastPoint := some p,
           hist := { t.hist with
                     canvas := drawLine t.editMode t.originalImg t.brushSize lp p t.hist.canvas } }
       | none => t) := by
    simp only [draw, if_neg hnc]
  rcases hd : t.isDrawing with _ | _
  · rw [hdraw, if_pos (by rw [hd])]
    simp [hd]
  · rw [hdraw, if_neg (by rw [hd]; simp)]
    rcases hlp : t.lastPoint with _ | lp
    · simp [hlp, hd]
    · simp only [hlp, hmode, horig, drawLine]
      simp [hd]

theorem draw_foldl_restore_none (ps : List Pt) :
    ∀ (t : EditorState), t.editMode = EditMode.restore → t.originalImg = none →
    (ps.foldl (fun u p => draw p u) t).editMode = EditMode.restore ∧
    (ps.foldl (fun u p => draw p u) t).originalImg = none ∧
    (ps.foldl (fun u p => draw p u) t).isDrawing = t.isDrawing ∧
    (ps.foldl (fun u p => draw p u) t).hist = t.hist := by
  induction ps with
  | nil =>
    intro t hmode horig
    exact ⟨hmode, horig, rfl, rfl⟩
  | cons p ps ih =>
    intro t hmode horig
    have hd := draw_restore_none_fields p t hmode horig
    have := ih (draw p t) (hd.1.trans hmode) (hd.2.1.trans horig)
    simp only [List.foldl_cons]
    exact ⟨this.1, this.2.1, this.2.2.1.trans hd.2.2.1,
      this.2.2.2.trans hd.2.2.2⟩

/-- C10 counterexample: a completed brush stroke does not always grow the
history length by one.  On a loaded 2-entry history whose cursor sits at
0 after an undo, a pixel-less Restore stroke (no original reference)
pushes exactly one entry but first truncates the forward entry: the
length stays 2 instead of growing to 3. -/
theorem stroke_push_length_counterexample :
    (stopDrawing (startDrawing ⟨0, 0⟩
        ⟨EditMode.restore, 40,
         ⟨[⟨1, 1, fun _ _ => Pixel.clear⟩, ⟨1, 1, fun _ _ => ⟨255, 255, 255, 255⟩⟩],
          0, ⟨1, 1, fun _ _ => Pixel.clear⟩⟩,
         none, none, none, false, none⟩)).hist.history.length = 2 ∧
    (⟨EditMode.restore, 40,
      ⟨[⟨1, 1, fun _ _ => Pixel.clear⟩, ⟨1, 1, fun _ _ => ⟨255, 255, 255, 255⟩⟩],
       0, ⟨1, 1, fun _ _ => Pixel.clear⟩⟩,
      none, none, none, false, none⟩ : EditorState).hist.history.length = 2 ∧
    (stopDrawing (startDrawing ⟨0, 0⟩
        ⟨EditMode.restore, 40,
         ⟨[⟨1, 1, fun _ _ => Pixel.clear⟩, ⟨1, 1, fun _ _ => ⟨255, 255, 255, 255⟩⟩],
          0, ⟨1, 1, fun _ _ => Pixel.clear⟩⟩,
         none, none, none, false, none⟩)).hist.historyIndex = 1 := by
  refine ⟨?_, rfl, ?_⟩ <;> rfl

/-- C10 (amended): a completed brush stroke — pointer-down, any number of
pointer-moves, then pointer-up/leave, outside Crop mode — pushes exactly
one history entry even when no pixel changed (here: a Restore stroke
with no original reference); when the cursor is at the tail the history
length grows by one, `canUndo` becomes true, and the new visible buffer
equals the previous history entry. -/
theorem stroke_pushes_one_entry (s : EditorState) (pos : Pt) (ps : List Pt)
    (hmode : s.editMode = EditMode.restore)
    (horig : s.originalImg = none)
    (htail : s.hist.historyIndex + 1 = s.hist.history.length)
    (hinv : s.hist.history.getD s.hist.historyIndex s.hist.canvas = s.hist.canvas) :
    (stopDrawing (ps.foldl (fun u p => draw p u) (startDrawing pos s))).hist.history
        = s.hist.history ++ [s.hist.canvas] ∧
    (stopDrawing (ps.foldl (fun u p => draw p u) (startDrawing pos s))).hist.history.length
        = s.hist.history.length + 1 ∧
    canUndo (stopDrawing (ps.foldl (fun u p => draw p u) (startDrawing pos s))).hist = true ∧
    (stopDrawing (ps.foldl (fun u p => draw p u) (startDrawing pos s))).hist.canvas
        = s.hist.canvas ∧
    (stopDrawing (ps.foldl (fun u p => draw p u) (startDrawing pos s))).hist.history.getD
        (stopDrawing (ps.foldl (fun u p => draw p u) (startDrawing pos s))).hist.historyIndex
        s.hist.canvas
        = s.hist.history.getD s.hist.historyIndex s.hist.canvas := by
  have hstart : startDrawing pos s =
      { s with isDrawing := true, lastPoint := some pos } := by
    simp only [startDrawing, hmode, horig]
    rw [if_neg (by simp : ¬ (EditMode.restore = EditMode.crop))]
    simp [drawLine]
  have hf := draw_foldl_restore_none ps (startDrawing pos s)
    (by rw [hstart]; exact hmode) (by rw [hstart]; exact horig)
  have hdrawing : (ps.foldl (fun u p => draw p u) (startDrawing pos s)).isDrawing = true := by
    rw [hf.2.2.1, hstart]
  have hhist : (ps.foldl (fun u p => draw p u) (startDrawing pos s)).hist = s.hist := by
    rw [hf.2.2.2, hstart]
  have hstop : (stopDrawing (ps.foldl (fun u p => draw p u) (startDrawing pos s))).hist
      = saveToHistory s.hist := by
    simp only [stopDrawing, hdrawing, if_pos, hhist]
  have hpush : saveToHistory s.hist =
      ⟨s.hist.history ++ [s.hist.canvas], s.hist.history.length, s.hist.canvas⟩ := by
    have htake : s.hist.history.take (s.hist.historyIndex + 1) = s.hist.history := by
      rw [htail, List.take_length]
    simp only [saveToHistory, htake, List.length_append, List.length_singleton,
      HistState.mk.injEq]
    refine ⟨by simp, by omega, by simp⟩
  rw [hstop, hpush]
  have hlen1 : 1 ≤ s.hist.history.length := by omega
  refine ⟨rfl, by simp, ?_, rfl, ?_⟩
  · simp only [canUndo, decide_eq_true_eq]
    omega
  · show (s.hist.history ++ [s.hist.canvas]).getD s.hist.history.length s.hist.canvas
        = s.hist.history.getD s.hist.historyIndex s.hist.canvas
    rw [List.getD_append_right _ _ _ _ (le_refl _), Nat.sub_self, hinv]
    rfl

/-- Witness for the amended C10: a Restore stroke with no original on a
loaded single-entry history doubles that entry; the history length grows
from 1 to 2, undo becomes enabled, and the visible buffer equals the
previous entry. -/
theorem stroke_pushes_one_entry_witness :
    (stopDrawing (([] : List Pt).foldl (fun u p => draw p u) (startDrawing ⟨0, 0⟩
        ⟨EditMode.restore, 40, ⟨[cexImg], 0, cexImg⟩,
         none, none, none, false, none⟩))).hist.history.length = 1 + 1 ∧
    canUndo (stopDrawing (([] : List Pt).foldl (fun u p => draw p u) (startDrawing ⟨0, 0⟩
        ⟨EditMode.restore, 40, ⟨[cexImg], 0, cexImg⟩,
         none, none, none, false, none⟩))).hist = true := by
  have h := stroke_pushes_one_entry
    ⟨EditMode.restore, 40, ⟨[cexImg], 0, cexImg⟩, none, none, none, false, none⟩
    ⟨0, 0⟩ [] rfl rfl rfl rfl
  exact ⟨h.2.1, h.2.2.1⟩

end BGR
